import Mathlib

/-!
Verification development for the `web_inspector` repository.

The definitions below are a shallow embedding of the code in
`src/backend/webchecker/patterns.py` and `src/backend/webchecker/scraper.py`.
Python strings are modelled as `List Char`; Python string methods
(`split`, `rstrip`, `strip`, `replace`) are embedded as executable
functions on `List Char`.  The fixed regular expressions compiled by the
code are embedded as executable matchers that reproduce the scanning and
backtracking behaviour of Python's `re` module on those fixed patterns.
-/

/-- ASCII letter, as used by the character classes of the email regexes. -/
def isAsciiLetter (c : Char) : Bool :=
  (decide ('A' ≤ c) && decide (c ≤ 'Z')) || (decide ('a' ≤ c) && decide (c ≤ 'z'))

/-- ASCII digit. -/
def isAsciiDigit (c : Char) : Bool :=
  decide ('0' ≤ c) && decide (c ≤ '9')

/-- Whitespace per Python's `str.isspace` / `re` `\s` (the Unicode
whitespace code points). -/
def pyIsSpace (c : Char) : Bool :=
  let n := c.toNat
  (decide (9 ≤ n) && decide (n ≤ 13)) ||
  (decide (28 ≤ n) && decide (n ≤ 32)) ||
  decide (n = 133) || decide (n = 160) || decide (n = 5760) ||
  (decide (8192 ≤ n) && decide (n ≤ 8202)) ||
  decide (n = 8232) || decide (n = 8233) || decide (n = 8239) ||
  decide (n = 8287) || decide (n = 12288)

/-- Python `str.strip()`: remove leading and trailing whitespace. -/
def pyStrip (l : List Char) : List Char :=
  ((l.dropWhile pyIsSpace).reverse.dropWhile pyIsSpace).reverse

/-- Python `str.rstrip(set)`: remove trailing characters drawn from `set`. -/
def rstripSet (set : List Char) (l : List Char) : List Char :=
  (l.reverse.dropWhile (fun c => decide (c ∈ set))).reverse

/-- Python `str.split(sep)` for a one-character separator: `"a@b@c".split('@')`
gives `["a", "b", "c"]`, and the empty string splits to `[""]`. -/
def pySplit (sep : Char) : List Char → List (List Char)
  | [] => [[]]
  | c :: cs =>
    if c = sep then [] :: pySplit sep cs
    else (c :: (pySplit sep cs).headD []) :: (pySplit sep cs).tail

/-- The punctuation stripped from email-shaped tokens
(`word.rstrip(',;:!?')` in `PatternMatcher._clean_trailing_punctuation`). -/
def emailPunct : List Char := [',', ';', ':', '!', '?']

/-- The punctuation stripped from all other tokens (`word.rstrip('.,;:!?')`). -/
def fullPunct : List Char := ['.', ',', ';', ':', '!', '?']

/-- Embeds `PatternMatcher._clean_trailing_punctuation`:
`if '@' in word and '.' in word.split('@')[1]: return word.rstrip(',;:!?')
else: return word.rstrip('.,;:!?')`. -/
def cleanTrailingPunctuation (word : List Char) : List Char :=
  if '@' ∈ word ∧ '.' ∈ (pySplit '@' word).getD 1 [] then
    rstripSet emailPunct word
  else
    rstripSet fullPunct word

/-- The substring after the first `'@'` of a word (the reading used by the
spec sentence behind claim C2). -/
def afterFirstAt (w : List Char) : List Char :=
  (w.dropWhile (fun c => decide (c ≠ '@'))).drop 1

/-- The segment of a word between its first and second `'@'` (all of the
rest when there is no second `'@'`); this is what Python's
`word.split('@')[1]` denotes. -/
def betweenAts (w : List Char) : List Char :=
  (afterFirstAt w).takeWhile (fun c => decide (c ≠ '@'))

/-- Does `pat` occur at the head of `l`? -/
def listHasPre (pat l : List Char) : Bool :=
  decide (l.take pat.length = pat)

/-- Index of the first occurrence of `pat` inside `l`, if any. -/
def findSubIndex (pat : List Char) : List Char → Option Nat
  | [] => if pat.isEmpty then some 0 else none
  | c :: cs => if listHasPre pat (c :: cs) then some 0 else (findSubIndex pat cs).map (· + 1)

/-- Does `pat` occur anywhere inside `l`? (Python `pat in s`.) -/
def containsSub (pat l : List Char) : Bool :=
  (findSubIndex pat l).isSome

/-- Python `str.replace(pat, repl)`: replace every non-overlapping occurrence,
scanning left to right.  Fuel-driven so that it reduces definitionally; the
fuel is the length of the scanned list, which bounds the number of steps. -/
def replaceAllAux (pat repl : List Char) : Nat → List Char → List Char
  | 0, l => l
  | _ + 1, [] => []
  | fuel + 1, c :: cs =>
    if listHasPre pat (c :: cs) then
      repl ++ replaceAllAux pat repl fuel ((c :: cs).drop pat.length)
    else
      c :: replaceAllAux pat repl fuel cs

/-- Python `str.replace`; the guard on an empty pattern is unreachable for
the entity strings this file uses it with. -/
def replaceAll (pat repl l : List Char) : List Char :=
  if pat.isEmpty then l else replaceAllAux pat repl l.length l

/-- Embeds `re.sub(r'<[^>]+>', '', word)`: from each `<`, a greedy run of
at least one non-`>` character followed by `>` is removed; a `<` that
starts no such match is kept and scanning resumes after it. -/
def removeTagsAux : Nat → List Char → List Char
  | 0, l => l
  | _ + 1, [] => []
  | fuel + 1, c :: cs =>
    if c = '<' then
      let run := cs.takeWhile (fun a => decide (a ≠ '>'))
      if run.isEmpty then c :: removeTagsAux fuel cs
      else
        match (cs.drop run.length).head? with
        | some '>' => removeTagsAux fuel (cs.drop (run.length + 1))
        | _ => c :: removeTagsAux fuel cs
    else c :: removeTagsAux fuel cs

def removeTags (l : List Char) : List Char := removeTagsAux l.length l

/-- The characters removed by `re.sub(r'[​-‍﻿]', '', word)`. -/
def isZeroWidth (c : Char) : Bool :=
  (decide (8203 ≤ c.toNat) && decide (c.toNat ≤ 8205)) || decide (c.toNat = 65279)

/-- The opener of a Framer comment block. -/
def framerOpen : List Char := "<!--$-->".data

/-- The closer of a Framer comment block (the opener with a slash before
the dollar sign). -/
def framerClose : List Char := "<!--/$-->".data

/-- Embeds the Framer comment-block substitution of
`PatternMatcher._clean_html_artifacts` (a DOTALL, non-greedy `re.sub` that
deletes from each opener up to the nearest closer); an opener with no
later closer matches nothing and is kept. -/
def removeFramerBlocksAux : Nat → List Char → List Char
  | 0, l => l
  | _ + 1, [] => []
  | fuel + 1, c :: cs =>
    if listHasPre framerOpen (c :: cs) then
      match findSubIndex framerClose ((c :: cs).drop framerOpen.length) with
      | some j =>
        removeFramerBlocksAux fuel ((c :: cs).drop (framerOpen.length + j + framerClose.length))
      | none => c :: removeFramerBlocksAux fuel cs
    else c :: removeFramerBlocksAux fuel cs

def removeFramerBlocks (l : List Char) : List Char := removeFramerBlocksAux l.length l

/-- Match of `data-framer-[^=]*="[^"]*"` at the head of `l`, returning the
rest of the list after the match.  The greedy `[^=]*` run necessarily stops
at the first `=`, and `[^"]*` at the first `"`, so the match is forced. -/
def matchDataFramer (l : List Char) : Option (List Char) :=
  if listHasPre ("data-framer-".data) l then
    let r1 := l.drop 12
    let r2 := r1.dropWhile (fun a => decide (a ≠ '='))
    if listHasPre ('=' :: [Char.ofNat 34]) r2 then
      let r3 := r2.drop 2
      let r4 := r3.dropWhile (fun a => decide (a ≠ Char.ofNat 34))
      match r4.head? with
      | some c => if c = Char.ofNat 34 then some (r4.drop 1) else none
      | none => none
    else none
  else none

/-- Embeds `re.sub(r'data-framer-[^=]*="[^"]*"', '', word)`. -/
def removeDataFramerAux : Nat → List Char → List Char
  | 0, l => l
  | _ + 1, [] => []
  | fuel + 1, c :: cs =>
    match matchDataFramer (c :: cs) with
    | some rest => removeDataFramerAux fuel rest
    | none => c :: removeDataFramerAux fuel cs

def removeDataFramer (l : List Char) : List Char := removeDataFramerAux l.length l

/-- Character class `[a-zA-Z0-9-]` of the `framer-` artifact pattern. -/
def isFramerNameChar (c : Char) : Bool :=
  isAsciiLetter c || isAsciiDigit c || decide (c = '-')

/-- Match of `framer-[a-zA-Z0-9-]+` at the head of `l` (greedy run). -/
def matchFramerName (l : List Char) : Option (List Char) :=
  if listHasPre ("framer-".data) l then
    let r := l.drop 7
    let run := r.takeWhile isFramerNameChar
    if run.isEmpty then none else some (r.drop run.length)
  else none

/-- Embeds `re.sub(r'framer-[a-zA-Z0-9-]+', '', word)`. -/
def removeFramerNamesAux : Nat → List Char → List Char
  | 0, l => l
  | _ + 1, [] => []
  | fuel + 1, c :: cs =>
    match matchFramerName (c :: cs) with
    | some rest => removeFramerNamesAux fuel rest
    | none => c :: removeFramerNamesAux fuel cs

def removeFramerNames (l : List Char) : List Char := removeFramerNamesAux l.length l

/-- Embeds `re.sub(r'\s+', ' ', word)`: every maximal run of whitespace
becomes a single space. -/
def collapseWsAux : Nat → List Char → List Char
  | 0, l => l
  | _ + 1, [] => []
  | fuel + 1, c :: cs =>
    if pyIsSpace c then ' ' :: collapseWsAux fuel (cs.dropWhile pyIsSpace)
    else c :: collapseWsAux fuel cs

def collapseWs (l : List Char) : List Char := collapseWsAux l.length l

/-- Embeds `PatternMatcher._clean_html_artifacts`, applying the source's
substitutions in order: tag removal, zero-width removal, the six entity
replacements, the three Framer substitutions, whitespace collapsing, and a
final strip. -/
def cleanHtmlArtifacts (w : List Char) : List Char :=
  let w1 := removeTags w
  let w2 := w1.filter (fun c => !(isZeroWidth c))
  let w3 := replaceAll ("&nbsp;".data) (" ".data) w2
  let w4 := replaceAll ("&amp;".data) ("&".data) w3
  let w5 := replaceAll ("&lt;".data) ("<".data) w4
  let w6 := replaceAll ("&gt;".data) (">".data) w5
  let w7 := replaceAll ("&quot;".data) ([Char.ofNat 34]) w6
  let w8 := replaceAll ("&apos;".data) ([Char.ofNat 39]) w7
  let w9 := removeFramerBlocks w8
  let w10 := removeDataFramer w9
  let w11 := removeFramerNames w10
  pyStrip (collapseWs w11)

/-- Character class `[A-Za-z0-9._%+-]` (the local part of the email regexes). -/
def isLocalChar (c : Char) : Bool :=
  isAsciiLetter c || isAsciiDigit c ||
  decide (c = '.') || decide (c = '_') || decide (c = '%') ||
  decide (c = '+') || decide (c = '-')

/-- Character class `[A-Za-z0-9.-]` (the domain run of the email regexes). -/
def isDomainChar (c : Char) : Bool :=
  isAsciiLetter c || isAsciiDigit c || decide (c = '.') || decide (c = '-')

/-- Character class `[A-Z|a-z]` of the email regexes.  The source writes the
class with a literal `|` between the two ranges, so the pipe character is a
member of the class. -/
def isTldChar (c : Char) : Bool :=
  isAsciiLetter c || decide (c = '|')

/-- Word character for `\b`, on the ASCII fragment of Python's `\w`
(letters, digits, underscore); all strings the claims evaluate are ASCII. -/
def isWordChar (c : Char) : Bool :=
  isAsciiLetter c || isAsciiDigit c || decide (c = '_')

/-- Is the character at index `i` of `s` a word character (`false` past the
end)? -/
def charIsWordAt (s : List Char) (i : Nat) : Bool :=
  match (s.drop i).head? with
  | some c => isWordChar c
  | none => false

/-- Python `\b` at position `i` of `s`: the word-character status differs
between the positions just before and just after `i`. -/
def wordBoundaryAt (s : List Char) (i : Nat) : Bool :=
  (if i = 0 then false else charIsWordAt s (i - 1)) != charIsWordAt s i

/-- Backtracking over the length of the `[A-Z|a-z]{2,}` run: try the
greedy length first, then shorter lengths down to 2, requiring `\b` after
the run.  `p` is the start of the run. -/
def tryTld (s : List Char) (p : Nat) : Nat → Option Nat
  | 0 => none
  | 1 => none
  | t + 2 => if wordBoundaryAt s (p + t + 2) then some (p + t + 2) else tryTld s p (t + 1)

/-- Backtracking over the length of the `[A-Za-z0-9.-]+` run starting at
`k`: try the greedy length first, then shorter ones down to 1; each choice
must be followed by a literal `.` and a valid `[A-Z|a-z]{2,}\b` tail. -/
def tryDomainSplit (s : List Char) (k : Nat) : Nat → Option Nat
  | 0 => none
  | d + 1 =>
    match (if (s.drop (k + d + 1)).head? = some '.' then
             tryTld s (k + d + 2) (((s.drop (k + d + 2)).takeWhile isTldChar).length)
           else none) with
    | some e => some e
    | none => tryDomainSplit s k d

/-- Match of `\b[A-Za-z0-9._%+-]+@[A-Za-z0-9.-]+\.[A-Z|a-z]{2,}\b` at
position `i` of `s`, returning the end position of the match.  The local
run is forced (its class excludes `@`), so the only backtracking is over
the domain run and the top-level run. -/
def matchEmailAt (s : List Char) (i : Nat) : Option Nat :=
  if wordBoundaryAt s i then
    let l := ((s.drop i).takeWhile isLocalChar).length
    if l = 0 then none
    else if (s.drop (i + l)).head? = some '@' then
      tryDomainSplit s (i + l + 1) (((s.drop (i + l + 1)).takeWhile isDomainChar).length)
    else none
  else none

/-- The `re.finditer` scan for the email pattern: leftmost matches, resuming
after each match end.  Every match spans at least one character, so the
fuel `s.length + 1` always suffices. -/
def emailFindAux (s : List Char) : Nat → Nat → List (Nat × Nat)
  | 0, _ => []
  | fuel + 1, i =>
    if s.length ≤ i then []
    else
      match matchEmailAt s i with
      | some e => (i, e) :: emailFindAux s fuel e
      | none => emailFindAux s fuel (i + 1)

/-- All matches of the compiled email-mode regex in `s`, as
(start, end) index pairs. -/
def emailFinditer (s : List Char) : List (Nat × Nat) :=
  emailFindAux s (s.length + 1) 0

/-- The `re.finditer` scan for a literal pattern (an `re.escape`d string compiles to
a matcher for exactly that string): non-overlapping occurrences of `p`,
scanning left to right.  An empty literal is unreachable: construction
rejects falsy pattern strings. -/
def litFindAux (p s : List Char) : Nat → Nat → List (Nat × Nat)
  | 0, _ => []
  | fuel + 1, i =>
    if p.isEmpty then []
    else if s.length < i + p.length then []
    else if (s.drop i).take p.length = p then
      (i, i + p.length) :: litFindAux p s fuel (i + p.length)
    else litFindAux p s fuel (i + 1)

def litFinditer (p s : List Char) : List (Nat × Nat) :=
  litFindAux p s (s.length + 1) 0

/-- The three matcher variants a `PatternMatcher` can compile: the fixed
email regex, a custom regular expression, or an escaped literal string.
Custom regular-expression semantics lie outside the modelled fragment (no
claim depends on them); the variant records the pattern source string. -/
inductive PatternVariant where
  | email : PatternVariant
  | custom : List Char → PatternVariant
  | literal : List Char → PatternVariant
deriving DecidableEq

/-- State of a constructed `PatternMatcher`: the `email_mode` attribute
and the compiled regex (as its variant). -/
structure PatternMatcher where
  emailMode : Bool
  variant : PatternVariant
deriving DecidableEq

/-- Python truthiness of an optional string argument: `None` and the empty
string are falsy. -/
def optTruthy : Option (List Char) → Bool
  | none => false
  | some s => !s.isEmpty

/-- The error message of `PatternMatcher.__init__`. -/
def configErrorMsg : List Char :=
  "Either pattern, custom_pattern, or email_mode must be provided".data

/-- Embeds `PatternMatcher.__init__(pattern, custom_pattern, email_mode)`:
the `if email_mode / elif custom_pattern / elif pattern / else raise`
chain.  A raised `ValueError` is the `Except.error` branch. -/
def patternMatcherInit (pattern customPattern : Option (List Char)) (emailMode : Bool) :
    Except (List Char) PatternMatcher :=
  if emailMode then Except.ok ⟨emailMode, PatternVariant.email⟩
  else if optTruthy customPattern then
    Except.ok ⟨emailMode, PatternVariant.custom (customPattern.getD [])⟩
  else if optTruthy pattern then
    Except.ok ⟨emailMode, PatternVariant.literal (pattern.getD [])⟩
  else Except.error configErrorMsg

/-- How many of the three discriminators are effectively supplied
(claim C1's counting). -/
def suppliedCount (pattern customPattern : Option (List Char)) (emailMode : Bool) : Nat :=
  (if emailMode then 1 else 0) +
  (if optTruthy customPattern then 1 else 0) +
  (if optTruthy pattern then 1 else 0)

/-- Is an `Except` value a success? -/
def exceptIsOk : Except (List Char) PatternMatcher → Bool
  | Except.ok _ => true
  | Except.error _ => false

/-- The span scan `self.regex.finditer(text)` of a matcher.  The custom
variant is outside the modelled fragment and yields no spans. -/
def matcherFinditer (m : PatternMatcher) (text : List Char) : List (Nat × Nat) :=
  match m.variant with
  | PatternVariant.email => emailFinditer text
  | PatternVariant.custom _ => []
  | PatternVariant.literal p => litFinditer p text

/-- The slice `text[sp.1 : sp.2]` of a match span. -/
def sliceOf (text : List Char) (sp : Nat × Nat) : List Char :=
  (text.drop sp.1).take (sp.2 - sp.1)

/-- The boundary characters of the context scans in
`PatternMatcher._find_matches_with_context*`: whitespace, `\n\r\t`,
`()[]{}<>"`, control characters below 32, and the zero-width character
written literally in the source (U+200D). -/
def isBoundaryChar (c : Char) : Bool :=
  pyIsSpace c || decide (c = Char.ofNat 10) || decide (c = Char.ofNat 13) ||
  decide (c = Char.ofNat 9) ||
  decide (c = '(') || decide (c = ')') || decide (c = '[') || decide (c = ']') ||
  decide (c = Char.ofNat 123) || decide (c = Char.ofNat 125) ||
  decide (c = '<') || decide (c = '>') || decide (c = Char.ofNat 34) ||
  decide (c.toNat < 32) || decide (c = Char.ofNat 8205)

/-- The word prefix scanned leftwards from a match start: the maximal
boundary-free run of `text` ending just before index `ms`. -/
def extractLeftBound (text : List Char) (ms : Nat) : List Char :=
  ((text.take ms).reverse.takeWhile (fun c => !(isBoundaryChar c))).reverse

/-- The word suffix scanned rightwards from a match end: the maximal
boundary-free run of `text` starting at index `me`. -/
def extractRightBound (text : List Char) (me : Nat) : List Char :=
  (text.drop me).takeWhile (fun c => !(isBoundaryChar c))

/-- The per-token cleanup shared by the context-extraction methods:
`word.strip()`, then `_clean_trailing_punctuation`, then
`_clean_html_artifacts`. -/
def processToken (w : List Char) : List Char :=
  cleanHtmlArtifacts (cleanTrailingPunctuation (pyStrip w))

/-- Embeds `PatternMatcher._find_matches_with_context_both`: for each span,
the boundary-delimited word `text[word_start:word_end]` containing the
match, cleaned; empty cleaned words are dropped. -/
def contextBothTokens (spans : List (Nat × Nat)) (text : List Char) : List (List Char) :=
  spans.filterMap (fun sp =>
    let w := processToken (extractLeftBound text sp.1 ++ sliceOf text sp ++ extractRightBound text sp.2)
    if w.isEmpty then none else some w)

/-- Embeds `PatternMatcher._find_matches_with_context` with
`extract_before=True`: the word from the left boundary through the match
end, cleaned. -/
def contextBeforeTokens (spans : List (Nat × Nat)) (text : List Char) : List (List Char) :=
  spans.filterMap (fun sp =>
    let w := processToken (extractLeftBound text sp.1 ++ sliceOf text sp)
    if w.isEmpty then none else some w)

/-- Embeds `PatternMatcher._find_matches_with_context` with
`extract_after=True`: the word from the match start through the right
boundary, cleaned. -/
def contextAfterTokens (spans : List (Nat × Nat)) (text : List Char) : List (List Char) :=
  spans.filterMap (fun sp =>
    let w := processToken (sliceOf text sp ++ extractRightBound text sp.2)
    if w.isEmpty then none else some w)

/-- Embeds `PatternMatcher.find_matches(text, extract_before, extract_after)`. -/
def findMatches (m : PatternMatcher) (text : List Char)
    (extractBefore extractAfter : Bool) : List (List Char) :=
  let spans := matcherFinditer m text
  if extractBefore && extractAfter then contextBothTokens spans text
  else if extractBefore then contextBeforeTokens spans text
  else if extractAfter then contextAfterTokens spans text
  else spans.map (fun sp => sliceOf text sp)

/-- The anchored shape `^[A-Za-z0-9._%+-]+@[A-Za-z0-9.-]+\.[A-Z|a-z]{2,}$`
without the end-of-string allowance for a trailing newline: the local run
is forced (its class excludes `@`), and since the `[A-Z|a-z]` class has no
dot, the literal `\.` can only be the last dot of the domain part. -/
def emailFormatCore (s : List Char) : Bool :=
  let l := s.takeWhile isLocalChar
  if l.isEmpty then false
  else
    match (s.drop l.length).head? with
    | some c =>
      if c = '@' then
        let r := s.drop (l.length + 1)
        let t := (r.reverse.takeWhile (fun a => decide (a ≠ '.'))).reverse
        if r.length ≤ t.length then false
        else
          let m := r.take (r.length - t.length - 1)
          (!m.isEmpty) && m.all isDomainChar && decide (2 ≤ t.length) && t.all isTldChar
      else false
    | none => false

/-- Embeds `re.match` of the anchored shape: Python's `$` also matches just
before a single newline at the end of the string. -/
def emailFormatMatch (s : List Char) : Bool :=
  emailFormatCore s ||
  (match s.getLast? with
   | some c => decide (c = Char.ofNat 10) && emailFormatCore s.dropLast
   | none => false)

/-- Embeds the trailing-character searches with Python `$` semantics: the string ends with
the character, or with the character followed by one final newline. -/
def endsBeforeDollar (c : Char) (s : List Char) : Bool :=
  (s.getLast? = some c) ||
  (s.getLast? = some (Char.ofNat 10) && s.dropLast.getLast? = some c)

/-- Embeds `PatternMatcher.is_valid_email`: the anchored shape match, the
seven invalid-pattern searches, the `split('@')` arity check, and the
local-part, domain and label length checks, in the source's order. -/
def isValidEmail (email : List Char) : Bool :=
  if !emailFormatMatch email then false
  else if containsSub ("..".data) email then false
  else if containsSub ("@.".data) email then false
  else if containsSub (".@".data) email then false
  else if email.head? = some '.' then false
  else if endsBeforeDollar '.' email then false
  else if endsBeforeDollar '@' email then false
  else if email.head? = some '@' then false
  else
    let parts := pySplit '@' email
    if parts.length ≠ 2 then false
    else
      let localPart := parts.getD 0 []
      let domain := parts.getD 1 []
      if 64 < localPart.length || localPart.length = 0 then false
      else if 253 < domain.length || domain.length = 0 then false
      else
        let domainParts := pySplit '.' domain
        if domainParts.length < 2 then false
        else
          let tld := domainParts.getLastD []
          decide (2 ≤ tld.length)

/-- The `ValueError` message of `PatternMatcher.find_emails_with_pages`. -/
def requiresEmailModeMsg : List Char :=
  "This method requires email_mode=True".data

/-- The successful body of `find_emails_with_pages`: each raw regex match
is stripped, HTML-cleaned, validated, and paired with the page URL, in
scan order. -/
def findEmailsList : List (Nat × Nat) → List Char → List Char → List (List Char × List Char)
  | [], _, _ => []
  | sp :: sps, text, pageUrl =>
    if isValidEmail (cleanHtmlArtifacts (pyStrip (sliceOf text sp))) then
      (cleanHtmlArtifacts (pyStrip (sliceOf text sp)), pageUrl) ::
        findEmailsList sps text pageUrl
    else findEmailsList sps text pageUrl

/-- Embeds `PatternMatcher.find_emails_with_pages(text, page_url)`: raises
`ValueError` unless the matcher was built with `email_mode=True`. -/
def findEmailsWithPages (m : PatternMatcher) (text pageUrl : List Char) :
    Except (List Char) (List (List Char × List Char)) :=
  if m.emailMode = false then Except.error requiresEmailModeMsg
  else Except.ok (findEmailsList (matcherFinditer m text) text pageUrl)

/-- URLs are Python strings. -/
abbrev Url := List Char

/-- The external fetch-and-parse collaborator's view of one page: its
plain-text content and its list of absolute anchor hrefs.  A failed fetch
(or parse) of a URL is `none`. -/
structure Page where
  text : List Char
  links : List Url
deriving DecidableEq

/-- The crawl's environment: the fetch collaborator, the denotation of the
link filter `urlparse(u).netloc == base_domain and not _should_exclude_url(u)`,
and the URLs produced by sitemap discovery. -/
structure CrawlEnv where
  fetch : Url → Option Page
  linkOk : Url → Bool
  sitemapUrls : List Url

/-- The configuration fields of `WebScraper` that the crawl loops read.
`max_pages` and `max_depth` are Python ints. -/
structure CrawlConfig where
  maxPages : Int
  maxDepth : Int
  followSitemap : Bool

/-- State of `WebScraper.scrape_site`: the visited set (kept as the list
of URLs in insertion order), the deque of `(url, depth)` pairs, the result
list, and a ghost trace of the entries actually processed (those that
passed the visited/depth guard and were fetched). -/
structure ScrapeState where
  visited : List Url
  queue : List (Url × Nat)
  results : List (List Char)
  processed : List (Url × Nat)

/-- The initial queue: `(start_url, 0)` followed, when sitemap following
is on, by the discovered sitemap URLs at depth 0 (the `not in visited`
check there is vacuous on the fresh, empty visited set). -/
def initQueue (cfg : CrawlConfig) (env : CrawlEnv) (start : Url) : List (Url × Nat) :=
  (start, 0) :: (if cfg.followSitemap then env.sitemapUrls.map (fun u => (u, 0)) else [])

/-- The state of `scrape_site` just before its main loop. -/
def initScrapeState (cfg : CrawlConfig) (env : CrawlEnv) (start : Url) : ScrapeState :=
  ⟨[], initQueue cfg env start, [], []⟩

/-- Embeds `WebScraper._scrape_page` followed by the result tagging of the
main loop: a fetch failure yields no results, a success tags each match of
`pattern_matcher.find_matches` with the URL, a colon and a space.  The extraction
call is abstracted as the function `fm`. -/
def pageOutput (env : CrawlEnv) (fm : List Char → List (List Char)) (u : Url) :
    List (List Char) :=
  match env.fetch u with
  | none => []
  | some pg => (fm pg.text).map (fun mt => u ++ (": ".data) ++ mt)

/-- Embeds the link-discovery step of the main loop: only below
`max_depth`, refetch the page (`_extract_links`; a failed fetch yields no
links), keep same-domain non-excluded links, and enqueue those not yet
visited at depth + 1. -/
def pageNewEntries (cfg : CrawlConfig) (env : CrawlEnv) (u : Url) (d : Nat)
    (visited' : List Url) : List (Url × Nat) :=
  match env.fetch u with
  | none => []
  | some pg =>
    if (d : Int) < cfg.maxDepth then
      ((pg.links.filter env.linkOk).filter (fun l => decide (l ∉ visited'))).map
        (fun l => (l, d + 1))
    else []

/-- Embeds the main loop of `WebScraper.scrape_site` (fuel-driven; the
Boolean reports whether the loop reached its exit condition within the
given fuel).  Each iteration: stop when the queue is empty or the page
budget is reached; pop `(url, depth)`; skip entries already visited or
beyond `max_depth`; otherwise mark visited, collect the page's tagged
matches, and enqueue the new links.  Per-page failures are caught by the
source's `try/except` and appear here as the fetch returning `none`. -/
def runScrape (cfg : CrawlConfig) (env : CrawlEnv) (fm : List Char → List (List Char)) :
    Nat → ScrapeState → ScrapeState × Bool
  | 0, st => (st, false)
  | fuel + 1, st =>
    match st.queue with
    | [] => (st, true)
    | (u, d) :: rest =>
      if (st.visited.length : Int) < cfg.maxPages then
        if u ∈ st.visited ∨ (d : Int) > cfg.maxDepth then
          runScrape cfg env fm fuel { st with queue := rest }
        else
          let visited' := st.visited ++ [u]
          runScrape cfg env fm fuel
            { visited := visited'
              queue := rest ++ pageNewEntries cfg env u d visited'
              results := st.results ++ pageOutput env fm u
              processed := st.processed ++ [(u, d)] }
      else (st, true)

/-- Python `set.add` on a list kept without duplicates. -/
def insertNew (u : Url) (l : List Url) : List Url :=
  if u ∈ l then l else l ++ [u]

/-- Embeds `email_groups[email].add(page_url)` on a `defaultdict(set)` kept as an
association list in key-insertion order. -/
def groupsAdd : List (List Char × List Url) → List Char → Url → List (List Char × List Url)
  | [], e, u => [(e, [u])]
  | (e', us) :: rest, e, u =>
    if e' = e then (e', insertNew u us) :: rest else (e', us) :: groupsAdd rest e u

/-- State of `WebScraper._scrape_site_email_mode`. -/
structure EmailScrapeState where
  visited : List Url
  queue : List (Url × Nat)
  groups : List (List Char × List Url)
  processed : List (Url × Nat)

def initEmailState (cfg : CrawlConfig) (env : CrawlEnv) (start : Url) : EmailScrapeState :=
  ⟨[], initQueue cfg env start, [], []⟩

/-- The mailto branch of `_scrape_page_email_mode`: an href starting with
`mailto:` has the scheme stripped and any query or fragment suffix
discarded, and is kept only if it validates. -/
def mailtoEmail (u : Url) (href : Url) : Option (List Char × Url) :=
  if listHasPre ("mailto:".data) href then
    let e1 := href.drop 7
    let e2 := (pySplit '?' e1).headD []
    let e3 := (pySplit '#' e2).headD []
    if isValidEmail e3 then some (e3, u) else none
  else none

/-- The per-page deduplication of `_scrape_page_email_mode`: first
occurrence of each email wins; `seen` is the accumulated seen-set. -/
def dedupByEmail : List (List Char × Url) → List (List Char) → List (List Char × Url)
  | [], _ => []
  | (e, p) :: rest, seen =>
    if e ∈ seen then dedupByEmail rest seen
    else (e, p) :: dedupByEmail rest (e :: seen)

/-- Embeds `WebScraper._scrape_page_email_mode`: text emails from
`find_emails_with_pages` (the matcher is the email-mode one, so the scan
is the email finditer), then mailto emails, deduplicated by address. -/
def scrapePageEmailMode (env : CrawlEnv) (u : Url) : List (List Char × Url) :=
  match env.fetch u with
  | none => []
  | some pg =>
    let textEmails := findEmailsList (emailFinditer pg.text) pg.text u
    let mailtoEmails := pg.links.filterMap (mailtoEmail u)
    dedupByEmail (textEmails ++ mailtoEmails) []

/-- Embeds the main loop of `WebScraper._scrape_site_email_mode`; it is
the loop of `scrape_site` with the page's `(email, page_url)` pairs merged
into the running groups instead of a flat result list. -/
def runScrapeEmail (cfg : CrawlConfig) (env : CrawlEnv) :
    Nat → EmailScrapeState → EmailScrapeState × Bool
  | 0, st => (st, false)
  | fuel + 1, st =>
    match st.queue with
    | [] => (st, true)
    | (u, d) :: rest =>
      if (st.visited.length : Int) < cfg.maxPages then
        if u ∈ st.visited ∨ (d : Int) > cfg.maxDepth then
          runScrapeEmail cfg env fuel { st with queue := rest }
        else
          let visited' := st.visited ++ [u]
          runScrapeEmail cfg env fuel
            { visited := visited'
              queue := rest ++ pageNewEntries cfg env u d visited'
              groups := (scrapePageEmailMode env u).foldl
                (fun g pr => groupsAdd g pr.1 pr.2) st.groups
              processed := st.processed ++ [(u, d)] }
      else (st, true)

/-- Lexicographic-by-code-point comparison of Python strings (`<=` of
`sorted`). -/
def lexLe : List Char → List Char → Bool
  | [], _ => true
  | _ :: _, [] => false
  | a :: as, b :: bs => if a < b then true else if a = b then lexLe as bs else false

/-- Insertion into a `lexLe`-sorted list. -/
def insertSorted (x : List Char) : List (List Char) → List (List Char)
  | [] => [x]
  | y :: ys => if lexLe x y then x :: y :: ys else y :: insertSorted x ys

/-- Python `sorted` on a list of strings: on duplicate-free input (the
sets the crawl builds) the nondecreasing reordering is unique, so an
insertion sort denotes it exactly. -/
def pySortStrings : List (List Char) → List (List Char)
  | [] => []
  | x :: xs => insertSorted x (pySortStrings xs)

/-- Python `', '.join(parts)`. -/
def joinCommaSpace : List (List Char) → List Char
  | [] => []
  | [x] => x
  | x :: y :: xs => x ++ (", ".data) ++ joinCommaSpace (y :: xs)

/-- The output formatting at the end of `_scrape_site_email_mode`: one
line per group (the email, a colon and a space, then the comma-space-joined
sorted page list), in group
insertion order. -/
def formatEmailResults (groups : List (List Char × List Url)) : List (List Char) :=
  groups.map (fun g => g.1 ++ (": ".data) ++ joinCommaSpace (pySortStrings g.2))

/-- Provenance of a normal-mode result line: it was produced by tagging a
match found on a successfully fetched page.  Used to state that failed
pages contribute nothing (claim C8). -/
def GoodResult (env : CrawlEnv) (fm : List Char → List (List Char)) (r : List Char) : Prop :=
  ∃ u pg mt, env.fetch u = some pg ∧ mt ∈ fm pg.text ∧ r = u ++ (": ".data) ++ mt

/-- The matcher compiled by `PatternMatcher(pattern="@")`. -/
def atMatcher : PatternMatcher := ⟨false, PatternVariant.literal ("@".data)⟩

/-- The matcher compiled by `PatternMatcher(email_mode=True)`. -/
def emailMatcher : PatternMatcher := ⟨true, PatternVariant.email⟩

/-- A trivial environment whose every fetch fails (used to instantiate
universally quantified crawl theorems at a concrete input). -/
def envTriv : CrawlEnv := ⟨fun _ => none, fun _ => true, []⟩

/-- A small concrete crawl configuration. -/
def cfgTwo : CrawlConfig := ⟨2, 1, false⟩

/-- The configuration of a crawl asked to run with `max_pages = 0`. -/
def cfgZero : CrawlConfig := ⟨0, 3, false⟩

/-- A trivial extraction function. -/
def fmTriv : List Char → List (List Char) := fun _ => []

/-- A concrete start URL. -/
def startW : Url := "s".data

/-- Two-page site for the email-grouping scenario of claim C7: page `p1`
contains `support@voda.co` and links to page `p2`, which contains the same
address. -/
def envC7 : CrawlEnv :=
  { fetch := fun u =>
      if u = ("p1".data) then some ⟨"support@voda.co".data, [("p2".data)]⟩
      else if u = ("p2".data) then some ⟨"write support@voda.co now".data, []⟩
      else none
    linkOk := fun _ => true
    sitemapUrls := [] }

/-- Configuration for the claim C7 scenario. -/
def cfgC7 : CrawlConfig := ⟨5, 2, false⟩

/-- The single group built by the claim C7 scenario. -/
def groupC7 : List Char × List Url := ("support@voda.co".data, [("p1".data), ("p2".data)])

theorem pySplit_ne_nil (sep : Char) : ∀ l : List Char, pySplit sep l ≠ []
  | [] => by simp [pySplit]
  | c :: cs => by
    by_cases h : c = sep <;> simp [pySplit, h]

theorem pySplit_headD (sep : Char) :
    ∀ l : List Char, (pySplit sep l).headD [] = l.takeWhile (fun c => decide (c ≠ sep))
  | [] => by simp [pySplit]
  | c :: cs => by
    by_cases h : c = sep
    · simp [pySplit, h]
    · have ih := pySplit_headD sep cs
      simp [pySplit, h]
      simpa using ih

theorem pySplit_getD_one (sep : Char) :
    ∀ l : List Char,
      (pySplit sep l).getD 1 [] =
        ((l.dropWhile (fun c => decide (c ≠ sep))).drop 1).takeWhile (fun c => decide (c ≠ sep))
  | [] => by simp [pySplit]
  | c :: cs => by
    by_cases h : c = sep
    · have hh := pySplit_headD sep cs
      cases hsp : pySplit sep cs with
      | nil => exact absurd hsp (pySplit_ne_nil sep cs)
      | cons g gs =>
        rw [hsp] at hh
        simp [pySplit, h, hsp, List.getD]
        simpa using hh
    · have ih := pySplit_getD_one sep cs
      cases hsp : pySplit sep cs with
      | nil => exact absurd hsp (pySplit_ne_nil sep cs)
      | cons g gs =>
        rw [hsp] at ih
        simp [pySplit, h, hsp, List.getD] at ih ⊢
        simpa [h] using ih

/-- C2 (counterexample).  The claim's reading fails on a token with two
`@`s: `"a@b@c.d."` contains `@`, the substring after the first `@`
(namely `"b@c.d."`) contains a dot, yet the code strips the trailing dot
(`split('@')[1]` is `"b"`, which has no dot), so the result is not the
email-style `rstrip(',;:!?')` the claim prescribes. -/
theorem c2_counterexample :
    '@' ∈ ("a@b@c.d.".data) ∧
    '.' ∈ afterFirstAt ("a@b@c.d.".data) ∧
    cleanTrailingPunctuation ("a@b@c.d.".data) = ("a@b@c.d".data) ∧
    cleanTrailingPunctuation ("a@b@c.d.".data) ≠ rstripSet emailPunct ("a@b@c.d.".data) := by
  refine ⟨by decide, by decide, by decide, by decide⟩

/-- C2 (amended).  Trailing-punctuation cleaning strips only trailing
`,;:!?` exactly when the token contains `@` and the segment between the
first and second `@` (Python's `word.split('@')[1]`; the whole remainder
when there is no second `@`) contains a dot; otherwise it strips trailing
`.,;:!?`.  For tokens with a single `@` this segment coincides with the
substring after the first `@`. -/
theorem c2_amended_trailing_punctuation (w : List Char) :
    cleanTrailingPunctuation w =
      if '@' ∈ w ∧ '.' ∈ betweenAts w then rstripSet emailPunct w
      else rstripSet fullPunct w := by
  have h := pySplit_getD_one '@' w
  unfold cleanTrailingPunctuation betweenAts afterFirstAt
  rw [h]

/-- C1 (counterexample).  Supplying two discriminators (a literal pattern
together with `email_mode=True`) does not raise: construction succeeds
and compiles the email matcher, refuting "fails whenever more than one
discriminator is effectively supplied". -/
theorem c1_counterexample :
    suppliedCount (some ("x".data)) none true = 2 ∧
    patternMatcherInit (some ("x".data)) none true = Except.ok emailMatcher := by
  exact ⟨by decide, rfl⟩

/-- C1 (amended).  Construction fails exactly when no discriminator is
effectively supplied (`email_mode` unset, `custom_pattern` and `pattern`
absent or empty); when at least one is supplied it succeeds and compiles
exactly one matcher, chosen by priority `email_mode`, then
`custom_pattern`, then `pattern`. -/
theorem c1_amended_construction :
    (∀ (p c : Option (List Char)) (e : Bool),
      exceptIsOk (patternMatcherInit p c e) = decide (1 ≤ suppliedCount p c e)) ∧
    (∀ p c : Option (List Char),
      patternMatcherInit p c true = Except.ok ⟨true, PatternVariant.email⟩) ∧
    (∀ (p : Option (List Char)) (s : List Char) (ch : Char),
      patternMatcherInit p (some (ch :: s)) false =
        Except.ok ⟨false, PatternVariant.custom (ch :: s)⟩) ∧
    (∀ (s : List Char) (ch : Char),
      patternMatcherInit (some (ch :: s)) none false =
        Except.ok ⟨false, PatternVariant.literal (ch :: s)⟩) ∧
    patternMatcherInit none none false = Except.error configErrorMsg := by
  refine ⟨?_, fun p c => rfl, fun p s ch => rfl, fun s ch => rfl, rfl⟩
  intro p c e
  cases e <;>
    cases hc : optTruthy c <;> cases hp : optTruthy p <;>
      simp [patternMatcherInit, exceptIsOk, suppliedCount, hc, hp]

/-- C3 (code bug).  The regex character class `[A-Z|a-z]` of
`is_valid_email` contains a literal pipe, so the code accepts
`"a@b.c|"`, whose top-level label `"c|"` is not made of letters; the
claim (and the spec) requires a top-level label of at least 2 letters.
The claim's listed examples do hold. -/
theorem c3_pipe_tld_accepted :
    isValidEmail ("a@b.c|".data) = true ∧
    ("c|".data).all isAsciiLetter = false ∧
    isValidEmail ("@example.com".data) = false ∧
    isValidEmail ("test@".data) = false ∧
    isValidEmail ("test..test@example.com".data) = false ∧
    isValidEmail ([]) = false ∧
    isValidEmail ("test@example.com.".data) = false ∧
    isValidEmail ("support@voda.co".data) = true ∧
    isValidEmail ("user.name@domain.co.uk".data) = true := by
  refine ⟨by decide, by decide, by decide, by decide, by decide, by decide, by decide,
    by decide, by decide⟩

/-- C6.  With both context flags set, `find_matches` on the literal
pattern `"@"` returns the complete boundary-delimited word containing
each match after cleaning: it is idempotent on the already-clean input
`"contact@example.com"`, and extracts `"support@voda.co"` from
`"<strong>support@voda.co</strong>"` with the HTML artifacts removed.
The matcher used is exactly the one `PatternMatcher(pattern="@")`
constructs. -/
theorem c6_boundary_word_extraction :
    patternMatcherInit (some ("@".data)) none false = Except.ok atMatcher ∧
    findMatches atMatcher ("contact@example.com".data) true true =
      [("contact@example.com".data)] ∧
    findMatches atMatcher ("<strong>support@voda.co</strong>".data) true true =
      [("support@voda.co".data)] := by
  refine ⟨rfl, by decide, by decide⟩

theorem runScrape_succ_nil (cfg : CrawlConfig) (env : CrawlEnv)
    (fm : List Char → List (List Char)) (fuel : Nat) (st : ScrapeState)
    (h : st.queue = []) : runScrape cfg env fm (fuel + 1) st = (st, true) := by
  simp [runScrape, h]

theorem runScrape_succ_cons (cfg : CrawlConfig) (env : CrawlEnv)
    (fm : List Char → List (List Char)) (fuel : Nat) (st : ScrapeState)
    (u : Url) (d : Nat) (rest : List (Url × Nat)) (h : st.queue = (u, d) :: rest) :
    runScrape cfg env fm (fuel + 1) st =
      if (st.visited.length : Int) < cfg.maxPages then
        if u ∈ st.visited ∨ (d : Int) > cfg.maxDepth then
          runScrape cfg env fm fuel { st with queue := rest }
        else
          runScrape cfg env fm fuel
            ⟨st.visited ++ [u],
             rest ++ pageNewEntries cfg env u d (st.visited ++ [u]),
             st.results ++ pageOutput env fm u,
             st.processed ++ [(u, d)]⟩
      else (st, true) := by
  simp [runScrape, h]

theorem runScrapeEmail_succ_nil (cfg : CrawlConfig) (env : CrawlEnv)
    (fuel : Nat) (st : EmailScrapeState)
    (h : st.queue = []) : runScrapeEmail cfg env (fuel + 1) st = (st, true) := by
  simp [runScrapeEmail, h]

theorem runScrapeEmail_succ_cons (cfg : CrawlConfig) (env : CrawlEnv)
    (fuel : Nat) (st : EmailScrapeState)
    (u : Url) (d : Nat) (rest : List (Url × Nat)) (h : st.queue = (u, d) :: rest) :
    runScrapeEmail cfg env (fuel + 1) st =
      if (st.visited.length : Int) < cfg.maxPages then
        if u ∈ st.visited ∨ (d : Int) > cfg.maxDepth then
          runScrapeEmail cfg env fuel { st with queue := rest }
        else
          runScrapeEmail cfg env fuel
            ⟨st.visited ++ [u],
             rest ++ pageNewEntries cfg env u d (st.visited ++ [u]),
             (scrapePageEmailMode env u).foldl (fun g pr => groupsAdd g pr.1 pr.2) st.groups,
             st.processed ++ [(u, d)]⟩
      else (st, true) := by
  simp [runScrapeEmail, h]

theorem nodup_append_one {α : Type} [DecidableEq α] (l : List α) (u : α)
    (h1 : l.Nodup) (h2 : u ∉ l) : (l ++ [u]).Nodup := by
  simp [List.nodup_append, h1, h2]

theorem runScrape_inv (cfg : CrawlConfig) (env : CrawlEnv) (fm : List Char → List (List Char)) :
    ∀ (fuel : Nat) (st : ScrapeState),
      st.visited.Nodup →
      (∀ p ∈ st.processed, p.1 ∈ st.visited) →
      ((st.processed.map Prod.fst).Nodup) →
      (∀ p ∈ st.processed, (p.2 : Int) ≤ cfg.maxDepth) →
      ((runScrape cfg env fm fuel st).1.visited.Nodup ∧
       (∀ p ∈ (runScrape cfg env fm fuel st).1.processed,
          p.1 ∈ (runScrape cfg env fm fuel st).1.visited) ∧
       ((runScrape cfg env fm fuel st).1.processed.map Prod.fst).Nodup ∧
       (∀ p ∈ (runScrape cfg env fm fuel st).1.processed, (p.2 : Int) ≤ cfg.maxDepth) ∧
       (∀ v ∈ st.visited, v ∈ (runScrape cfg env fm fuel st).1.visited) ∧
       ((st.visited.length : Int) ≤ cfg.maxPages →
          ((runScrape cfg env fm fuel st).1.visited.length : Int) ≤ cfg.maxPages))
  | 0, st => by
    intro h1 h2 h3 h4
    exact ⟨h1, h2, h3, h4, fun v hv => hv, fun h => h⟩
  | fuel + 1, st => by
    intro h1 h2 h3 h4
    cases hq : st.queue with
    | nil =>
      rw [runScrape_succ_nil cfg env fm fuel st hq]
      exact ⟨h1, h2, h3, h4, fun v hv => hv, fun h => h⟩
    | cons hd rest =>
      obtain ⟨u, d⟩ := hd
      rw [runScrape_succ_cons cfg env fm fuel st u d rest hq]
      by_cases hb : (st.visited.length : Int) < cfg.maxPages
      · by_cases hs : u ∈ st.visited ∨ (d : Int) > cfg.maxDepth
        · simp only [if_pos hb, if_pos hs]
          exact runScrape_inv cfg env fm fuel { st with queue := rest } h1 h2 h3 h4
        · simp only [if_pos hb, if_neg hs]
          push_neg at hs
          obtain ⟨hu, hd2⟩ := hs
          have h1' : (st.visited ++ [u]).Nodup := nodup_append_one _ _ h1 hu
          have h2' : ∀ p ∈ st.processed ++ [(u, d)], p.1 ∈ st.visited ++ [u] := by
            intro p hp
            rcases List.mem_append.mp hp with hp | hp
            · exact List.mem_append.mpr (Or.inl (h2 p hp))
            · simp only [List.mem_singleton] at hp
              subst hp
              simp
          have h3' : ((st.processed ++ [(u, d)]).map Prod.fst).Nodup := by
            rw [List.map_append]
            refine nodup_append_one (st.processed.map Prod.fst) u h3 ?_
            intro hmem
            rcases List.mem_map.mp hmem with ⟨p, hp, hpe⟩
            exact hu (hpe ▸ h2 p hp)
          have h4' : ∀ p ∈ st.processed ++ [(u, d)], (p.2 : Int) ≤ cfg.maxDepth := by
            intro p hp
            rcases List.mem_append.mp hp with hp | hp
            · exact h4 p hp
            · simp only [List.mem_singleton] at hp
              subst hp
              simpa using hd2
          have ih := runScrape_inv cfg env fm fuel
            ⟨st.visited ++ [u], rest ++ pageNewEntries cfg env u d (st.visited ++ [u]),
             st.results ++ pageOutput env fm u, st.processed ++ [(u, d)]⟩ h1' h2' h3' h4'
          refine ⟨ih.1, ih.2.1, ih.2.2.1, ih.2.2.2.1, ?_, ?_⟩
          · intro v hv
            exact ih.2.2.2.2.1 v (List.mem_append.mpr (Or.inl hv))
          · intro _
            apply ih.2.2.2.2.2
            simp only [List.length_append, List.length_singleton]
            push_cast
            omega
      · simp only [if_neg hb]
        exact ⟨h1, h2, h3, h4, fun v hv => hv, fun h => h⟩

theorem mem_keys_groupsAdd (e : List Char) (u : Url) (x : List Char) :
    ∀ g : List (List Char × List Url),
      (x ∈ (groupsAdd g e u).map Prod.fst ↔ x ∈ g.map Prod.fst ∨ x = e)
  | [] => by simp [groupsAdd]
  | (e', us) :: rest => by
    by_cases h : e' = e
    · subst h
      simp [groupsAdd]
      tauto
    · simp only [groupsAdd, if_neg h, List.map_cons, List.mem_cons,
        mem_keys_groupsAdd e u x rest]
      tauto

theorem keys_nodup_groupsAdd (e : List Char) (u : Url) :
    ∀ g : List (List Char × List Url),
      (g.map Prod.fst).Nodup → ((groupsAdd g e u).map Prod.fst).Nodup
  | [] => by simp [groupsAdd]
  | (e', us) :: rest => by
    intro h
    simp only [List.map_cons, List.nodup_cons] at h
    by_cases he : e' = e
    · subst he
      simpa [groupsAdd] using h
    · simp only [groupsAdd, if_neg he, List.map_cons, List.nodup_cons]
      refine ⟨?_, keys_nodup_groupsAdd e u rest h.2⟩
      intro hmem
      rcases (mem_keys_groupsAdd e u e' rest).mp hmem with hm | hm
      · exact h.1 hm
      · exact he hm

theorem nodup_insertNew (u : Url) (l : List Url) (h : l.Nodup) : (insertNew u l).Nodup := by
  unfold insertNew
  by_cases hm : u ∈ l
  · simpa [hm]
  · simpa [hm] using nodup_append_one l u h hm

theorem pages_nodup_groupsAdd (e : List Char) (u : Url) :
    ∀ g : List (List Char × List Url),
      (∀ gp ∈ g, gp.2.Nodup) → ∀ gp ∈ groupsAdd g e u, gp.2.Nodup
  | [] => by
    intro _ gp hgp
    simp only [groupsAdd, List.mem_singleton] at hgp
    subst hgp
    simp
  | (e', us) :: rest => by
    intro h gp hgp
    by_cases he : e' = e
    · simp only [groupsAdd, if_pos he, List.mem_cons] at hgp
      rcases hgp with hgp | hgp
      · subst hgp
        exact nodup_insertNew u us (h (e', us) (by simp))
      · exact h gp (List.mem_cons_of_mem _ hgp)
    · simp only [groupsAdd, if_neg he, List.mem_cons] at hgp
      rcases hgp with hgp | hgp
      · subst hgp
        exact h (e', us) (by simp)
      · exact pages_nodup_groupsAdd e u rest (fun q hq => h q (List.mem_cons_of_mem _ hq)) gp hgp

theorem keys_nodup_groupsFold :
    ∀ (prs : List (List Char × Url)) (g : List (List Char × List Url)),
      (g.map Prod.fst).Nodup →
      ((prs.foldl (fun acc pr => groupsAdd acc pr.1 pr.2) g).map Prod.fst).Nodup
  | [], _g => fun h => h
  | pr :: prs, g => fun h =>
    keys_nodup_groupsFold prs (groupsAdd g pr.1 pr.2) (keys_nodup_groupsAdd pr.1 pr.2 g h)

theorem pages_nodup_groupsFold :
    ∀ (prs : List (List Char × Url)) (g : List (List Char × List Url)),
      (∀ gp ∈ g, gp.2.Nodup) →
      ∀ gp ∈ prs.foldl (fun acc pr => groupsAdd acc pr.1 pr.2) g, gp.2.Nodup
  | [], _g => fun h => h
  | pr :: prs, g => fun h =>
    pages_nodup_groupsFold prs (groupsAdd g pr.1 pr.2) (pages_nodup_groupsAdd pr.1 pr.2 g h)

theorem runScrapeEmail_inv (cfg : CrawlConfig) (env : CrawlEnv) :
    ∀ (fuel : Nat) (st : EmailScrapeState),
      st.visited.Nodup →
      (∀ p ∈ st.processed, p.1 ∈ st.visited) →
      ((st.processed.map Prod.fst).Nodup) →
      (∀ p ∈ st.processed, (p.2 : Int) ≤ cfg.maxDepth) →
      ((st.groups.map Prod.fst).Nodup) →
      (∀ gp ∈ st.groups, gp.2.Nodup) →
      ((runScrapeEmail cfg env fuel st).1.visited.Nodup ∧
       (∀ p ∈ (runScrapeEmail cfg env fuel st).1.processed,
          p.1 ∈ (runScrapeEmail cfg env fuel st).1.visited) ∧
       ((runScrapeEmail cfg env fuel st).1.processed.map Prod.fst).Nodup ∧
       (∀ p ∈ (runScrapeEmail cfg env fuel st).1.processed, (p.2 : Int) ≤ cfg.maxDepth) ∧
       ((runScrapeEmail cfg env fuel st).1.groups.map Prod.fst).Nodup ∧
       (∀ gp ∈ (runScrapeEmail cfg env fuel st).1.groups, gp.2.Nodup) ∧
       ((st.visited.length : Int) ≤ cfg.maxPages →
          ((runScrapeEmail cfg env fuel st).1.visited.length : Int) ≤ cfg.maxPages))
  | 0, st => by
    intro h1 h2 h3 h4 h5 h6
    exact ⟨h1, h2, h3, h4, h5, h6, fun h => h⟩
  | fuel + 1, st => by
    intro h1 h2 h3 h4 h5 h6
    cases hq : st.queue with
    | nil =>
      rw [runScrapeEmail_succ_nil cfg env fuel st hq]
      exact ⟨h1, h2, h3, h4, h5, h6, fun h => h⟩
    | cons hd rest =>
      obtain ⟨u, d⟩ := hd
      rw [runScrapeEmail_succ_cons cfg env fuel st u d rest hq]
      by_cases hb : (st.visited.length : Int) < cfg.maxPages
      · by_cases hs : u ∈ st.visited ∨ (d : Int) > cfg.maxDepth
        · simp only [if_pos hb, if_pos hs]
          exact runScrapeEmail_inv cfg env fuel { st with queue := rest } h1 h2 h3 h4 h5 h6
        · simp only [if_pos hb, if_neg hs]
          push_neg at hs
          obtain ⟨hu, hd2⟩ := hs
          have h1' : (st.visited ++ [u]).Nodup := nodup_append_one _ _ h1 hu
          have h2' : ∀ p ∈ st.processed ++ [(u, d)], p.1 ∈ st.visited ++ [u] := by
            intro p hp
            rcases List.mem_append.mp hp with hp | hp
            · exact List.mem_append.mpr (Or.inl (h2 p hp))
            · simp only [List.mem_singleton] at hp
              subst hp
              simp
          have h3' : ((st.processed ++ [(u, d)]).map Prod.fst).Nodup := by
            rw [List.map_append]
            refine nodup_append_one (st.processed.map Prod.fst) u h3 ?_
            intro hmem
            rcases List.mem_map.mp hmem with ⟨p, hp, hpe⟩
            exact hu (hpe ▸ h2 p hp)
          have h4' : ∀ p ∈ st.processed ++ [(u, d)], (p.2 : Int) ≤ cfg.maxDepth := by
            intro p hp
            rcases List.mem_append.mp hp with hp | hp
            · exact h4 p hp
            · simp only [List.mem_singleton] at hp
              subst hp
              simpa using hd2
          have h5' := keys_nodup_groupsFold (scrapePageEmailMode env u) st.groups h5
          have h6' := pages_nodup_groupsFold (scrapePageEmailMode env u) st.groups h6
          have ih := runScrapeEmail_inv cfg env fuel
            ⟨st.visited ++ [u], rest ++ pageNewEntries cfg env u d (st.visited ++ [u]),
             (scrapePageEmailMode env u).foldl (fun g pr => groupsAdd g pr.1 pr.2) st.groups,
             st.processed ++ [(u, d)]⟩ h1' h2' h3' h4' h5' h6'
          refine ⟨ih.1, ih.2.1, ih.2.2.1, ih.2.2.2.1, ih.2.2.2.2.1, ih.2.2.2.2.2.1, ?_⟩
          intro _
          apply ih.2.2.2.2.2.2
          simp only [List.length_append, List.length_singleton]
          push_cast
          omega
      · simp only [if_neg hb]
        exact ⟨h1, h2, h3, h4, h5, h6, fun h => h⟩

theorem runScrape_visited_mono (cfg : CrawlConfig) (env : CrawlEnv)
    (fm : List Char → List (List Char)) :
    ∀ (fuel : Nat) (st : ScrapeState) (u : Url),
      u ∈ st.visited → u ∈ (runScrape cfg env fm fuel st).1.visited
  | 0, st, u => fun h => h
  | fuel + 1, st, u => by
    intro h
    cases hq : st.queue with
    | nil =>
      rw [runScrape_succ_nil cfg env fm fuel st hq]
      exact h
    | cons hd rest =>
      obtain ⟨v, d⟩ := hd
      rw [runScrape_succ_cons cfg env fm fuel st v d rest hq]
      by_cases hb : (st.visited.length : Int) < cfg.maxPages
      · by_cases hs : v ∈ st.visited ∨ (d : Int) > cfg.maxDepth
        · simp only [if_pos hb, if_pos hs]
          exact runScrape_visited_mono cfg env fm fuel { st with queue := rest } u h
        · simp only [if_pos hb, if_neg hs]
          exact runScrape_visited_mono cfg env fm fuel _ u (List.mem_append.mpr (Or.inl h))
      · simp only [if_neg hb]
        exact h

theorem runScrape_no_reprocess (cfg : CrawlConfig) (env : CrawlEnv)
    (fm : List Char → List (List Char)) :
    ∀ (fuel : Nat) (st : ScrapeState) (u : Url),
      u ∈ st.visited →
      ∀ p ∈ (runScrape cfg env fm fuel st).1.processed, p.1 = u → p ∈ st.processed
  | 0, st, u => fun _ p hp _ => hp
  | fuel + 1, st, u => by
    intro h p
    cases hq : st.queue with
    | nil =>
      rw [runScrape_succ_nil cfg env fm fuel st hq]
      exact fun hp _ => hp
    | cons hd rest =>
      obtain ⟨v, d⟩ := hd
      rw [runScrape_succ_cons cfg env fm fuel st v d rest hq]
      by_cases hb : (st.visited.length : Int) < cfg.maxPages
      · by_cases hs : v ∈ st.visited ∨ (d : Int) > cfg.maxDepth
        · simp only [if_pos hb, if_pos hs]
          exact runScrape_no_reprocess cfg env fm fuel { st with queue := rest } u h p
        · simp only [if_pos hb, if_neg hs]
          push_neg at hs
          intro hp hpu
          have hin := runScrape_no_reprocess cfg env fm fuel
            ⟨st.visited ++ [v], rest ++ pageNewEntries cfg env v d (st.visited ++ [v]),
             st.results ++ pageOutput env fm v, st.processed ++ [(v, d)]⟩ u
            (List.mem_append.mpr (Or.inl h)) p hp hpu
          rcases List.mem_append.mp hin with hin | hin
          · exact hin
          · simp only [List.mem_singleton] at hin
            exfalso
            apply hs.1
            have hv : v = u := by
              rw [hin] at hpu
              exact hpu
            rw [hv]
            exact h
      · simp only [if_neg hb]
        exact fun hp _ => hp

theorem budget_exhausted (cfg : CrawlConfig) (st : ScrapeState)
    (h : cfg.maxPages.toNat ≤ st.visited.length) :
    ¬ ((st.visited.length : Int) < cfg.maxPages) := by
  omega

theorem runScrape_term (cfg : CrawlConfig) (env : CrawlEnv)
    (fm : List Char → List (List Char)) :
    ∀ (a q : Nat) (st : ScrapeState),
      cfg.maxPages.toNat - st.visited.length ≤ a → st.queue.length ≤ q →
      ∃ n, (runScrape cfg env fm n st).2 = true := by
  intro a
  induction a with
  | zero =>
    intro q st ha _
    cases hq : st.queue with
    | nil => exact ⟨0 + 1, by rw [runScrape_succ_nil cfg env fm 0 st hq]⟩
    | cons hd tl =>
      obtain ⟨u, d⟩ := hd
      refine ⟨0 + 1, ?_⟩
      rw [runScrape_succ_cons cfg env fm 0 st u d tl hq]
      have hb : ¬ ((st.visited.length : Int) < cfg.maxPages) :=
        budget_exhausted cfg st (by omega)
      simp [hb]
  | succ a iha =>
    intro q
    induction q with
    | zero =>
      intro st _ hq
      have hnil : st.queue = [] := List.length_eq_zero.mp (Nat.le_zero.mp hq)
      exact ⟨0 + 1, by rw [runScrape_succ_nil cfg env fm 0 st hnil]⟩
    | succ q ihq =>
      intro st ha hq
      cases hqe : st.queue with
      | nil => exact ⟨0 + 1, by rw [runScrape_succ_nil cfg env fm 0 st hqe]⟩
      | cons hd tl =>
        obtain ⟨u, d⟩ := hd
        by_cases hb : (st.visited.length : Int) < cfg.maxPages
        · by_cases hs : u ∈ st.visited ∨ (d : Int) > cfg.maxDepth
          · have hlen : tl.length ≤ q := by
              have := congrArg List.length hqe
              simp only [List.length_cons] at this
              omega
            obtain ⟨n, hn⟩ := ihq { st with queue := tl } (by simpa using ha) hlen
            refine ⟨n + 1, ?_⟩
            rw [runScrape_succ_cons cfg env fm n st u d tl hqe]
            simp only [if_pos hb, if_pos hs]
            exact hn
          · have hlt : st.visited.length < cfg.maxPages.toNat := by omega
            have ha2 : cfg.maxPages.toNat - (st.visited ++ [u]).length ≤ a := by
              simp only [List.length_append, List.length_singleton]
              omega
            obtain ⟨n, hn⟩ := iha
              (tl ++ pageNewEntries cfg env u d (st.visited ++ [u])).length
              ⟨st.visited ++ [u], tl ++ pageNewEntries cfg env u d (st.visited ++ [u]),
               st.results ++ pageOutput env fm u, st.processed ++ [(u, d)]⟩
              ha2 le_rfl
            refine ⟨n + 1, ?_⟩
            rw [runScrape_succ_cons cfg env fm n st u d tl hqe]
            simp only [if_pos hb, if_neg hs]
            exact hn
        · exact ⟨0 + 1, by
            rw [runScrape_succ_cons cfg env fm 0 st u d tl hqe]
            simp [hb]⟩

theorem runScrape_finish_char (cfg : CrawlConfig) (env : CrawlEnv)
    (fm : List Char → List (List Char)) :
    ∀ (fuel : Nat) (st : ScrapeState),
      (runScrape cfg env fm fuel st).2 = true →
      ((runScrape cfg env fm fuel st).1.queue = [] ∨
       ¬ (((runScrape cfg env fm fuel st).1.visited.length : Int) < cfg.maxPages))
  | 0, st => by
    intro h
    simp [runScrape] at h
  | fuel + 1, st => by
    intro h
    cases hq : st.queue with
    | nil =>
      rw [runScrape_succ_nil cfg env fm fuel st hq]
      exact Or.inl hq
    | cons hd rest =>
      obtain ⟨u, d⟩ := hd
      rw [runScrape_succ_cons cfg env fm fuel st u d rest hq] at h ⊢
      by_cases hb : (st.visited.length : Int) < cfg.maxPages
      · by_cases hs : u ∈ st.visited ∨ (d : Int) > cfg.maxDepth
        · simp only [if_pos hb, if_pos hs] at h ⊢
          exact runScrape_finish_char cfg env fm fuel { st with queue := rest } h
        · simp only [if_pos hb, if_neg hs] at h ⊢
          exact runScrape_finish_char cfg env fm fuel _ h
      · simp only [if_neg hb]
        exact Or.inr hb

theorem runScrape_results_good (cfg : CrawlConfig) (env : CrawlEnv)
    (fm : List Char → List (List Char)) :
    ∀ (fuel : Nat) (st : ScrapeState),
      (∀ r ∈ st.results, GoodResult env fm r) →
      ∀ r ∈ (runScrape cfg env fm fuel st).1.results, GoodResult env fm r
  | 0, st => fun h => h
  | fuel + 1, st => by
    intro h
    cases hq : st.queue with
    | nil =>
      rw [runScrape_succ_nil cfg env fm fuel st hq]
      exact h
    | cons hd rest =>
      obtain ⟨u, d⟩ := hd
      rw [runScrape_succ_cons cfg env fm fuel st u d rest hq]
      by_cases hb : (st.visited.length : Int) < cfg.maxPages
      · by_cases hs : u ∈ st.visited ∨ (d : Int) > cfg.maxDepth
        · simp only [if_pos hb, if_pos hs]
          exact runScrape_results_good cfg env fm fuel { st with queue := rest } h
        · simp only [if_pos hb, if_neg hs]
          apply runScrape_results_good cfg env fm fuel
          intro r hr
          rcases List.mem_append.mp hr with hr | hr
          · exact h r hr
          · unfold pageOutput at hr
            cases hf : env.fetch u with
            | none => simp [hf] at hr
            | some pg =>
              rw [hf] at hr
              rcases List.mem_map.mp hr with ⟨mt, hmt, hre⟩
              exact ⟨u, pg, mt, hf, hmt, hre.symm⟩
      · simp only [if_neg hb]
        exact h

theorem lexLe_total : ∀ a b : List Char, lexLe a b = true ∨ lexLe b a = true
  | [], _ => Or.inl rfl
  | _ :: _, [] => Or.inr rfl
  | a :: as, b :: bs => by
    rcases lt_trichotomy a b with h | h | h
    · left
      simp [lexLe, h]
    · subst h
      rcases lexLe_total as bs with hr | hr <;> simp [lexLe, hr]
    · right
      simp [lexLe, h]

theorem lexLe_trans : ∀ a b c : List Char,
    lexLe a b = true → lexLe b c = true → lexLe a c = true
  | [], _, _ => by intro _ _; rfl
  | _ :: _, [], _ => by intro h _; simp [lexLe] at h
  | _ :: _, _ :: _, [] => by intro _ h; simp [lexLe] at h
  | a :: as, b :: bs, c :: cs => by
    intro h1 h2
    by_cases hab : a < b
    · by_cases hbc : b < c
      · simp [lexLe, lt_trans hab hbc]
      · by_cases hbce : b = c
        · subst hbce
          simp [lexLe, hab]
        · simp [lexLe, hbc, hbce] at h2
    · by_cases habe : a = b
      · subst habe
        by_cases hbc : a < c
        · simp [lexLe, hbc]
        · by_cases hbce : a = c
          · subst hbce
            simp only [lexLe, lt_irrefl, if_neg (lt_irrefl a), if_pos rfl] at h1 h2 ⊢
            exact lexLe_trans as bs cs h1 h2
          · simp [lexLe, hbc, hbce] at h2
      · simp [lexLe, hab, habe] at h1

theorem mem_insertSorted (x y : List Char) :
    ∀ l : List (List Char), y ∈ insertSorted x l ↔ y = x ∨ y ∈ l
  | [] => by simp [insertSorted]
  | z :: zs => by
    by_cases h : lexLe x z = true
    · simp only [insertSorted, if_pos h, List.mem_cons]
    · simp only [insertSorted, if_neg h, List.mem_cons, mem_insertSorted x y zs]
      tauto

theorem pairwise_insertSorted (x : List Char) :
    ∀ l : List (List Char),
      l.Pairwise (fun a b => lexLe a b = true) →
      (insertSorted x l).Pairwise (fun a b => lexLe a b = true)
  | [] => by simp [insertSorted]
  | z :: zs => by
    intro h
    rcases List.pairwise_cons.mp h with ⟨hz, hzs⟩
    by_cases hx : lexLe x z = true
    · rw [insertSorted, if_pos hx]
      refine List.Pairwise.cons ?_ h
      intro b hb
      rcases List.mem_cons.mp hb with hb | hb
      · subst hb
        exact hx
      · exact lexLe_trans x z b hx (hz b hb)
    · rw [insertSorted, if_neg hx]
      refine List.Pairwise.cons ?_ (pairwise_insertSorted x zs hzs)
      intro b hb
      rcases (mem_insertSorted x b zs).mp hb with hb | hb
      · rcases lexLe_total x z with ht | ht
        · exact absurd ht hx
        · rw [hb]
          exact ht
      · exact hz b hb

theorem pairwise_pySortStrings :
    ∀ l : List (List Char), (pySortStrings l).Pairwise (fun a b => lexLe a b = true)
  | [] => by simp [pySortStrings]
  | x :: xs => pairwise_insertSorted x (pySortStrings xs) (pairwise_pySortStrings xs)

/-- C4.  From a fresh (empty) visited set, both crawl loops mark at most
`max_pages` distinct URLs visited (the visited list stays duplicate-free
and its length stays within the budget), and every dequeued entry that is
actually fetched and extracted from has depth at most `max_depth`. -/
theorem c4_crawl_bounds (cfg : CrawlConfig) (env : CrawlEnv)
    (fm : List Char → List (List Char)) (start : Url) (fuel : Nat)
    (h : 0 ≤ cfg.maxPages) :
    ((runScrape cfg env fm fuel (initScrapeState cfg env start)).1.visited.Nodup ∧
     (((runScrape cfg env fm fuel (initScrapeState cfg env start)).1.visited.length : Int) ≤
        cfg.maxPages) ∧
     (∀ p ∈ (runScrape cfg env fm fuel (initScrapeState cfg env start)).1.processed,
        (p.2 : Int) ≤ cfg.maxDepth)) ∧
    ((runScrapeEmail cfg env fuel (initEmailState cfg env start)).1.visited.Nodup ∧
     (((runScrapeEmail cfg env fuel (initEmailState cfg env start)).1.visited.length : Int) ≤
        cfg.maxPages) ∧
     (∀ p ∈ (runScrapeEmail cfg env fuel (initEmailState cfg env start)).1.processed,
        (p.2 : Int) ≤ cfg.maxDepth)) := by
  have hn := runScrape_inv cfg env fm fuel (initScrapeState cfg env start)
    (by simp [initScrapeState]) (by simp [initScrapeState]) (by simp [initScrapeState])
    (by simp [initScrapeState])
  have he := runScrapeEmail_inv cfg env fuel (initEmailState cfg env start)
    (by simp [initEmailState]) (by simp [initEmailState]) (by simp [initEmailState])
    (by simp [initEmailState]) (by simp [initEmailState]) (by simp [initEmailState])
  refine ⟨⟨hn.1, ?_, hn.2.2.2.1⟩, ⟨he.1, ?_, he.2.2.2.1⟩⟩
  · exact hn.2.2.2.2.2 (by simpa [initScrapeState] using h)
  · exact he.2.2.2.2.2.2 (by simpa [initEmailState] using h)

theorem c4_crawl_bounds_witness :
    (0 : Int) ≤ cfgTwo.maxPages ∧
    (((runScrape cfgTwo envTriv fmTriv 3 (initScrapeState cfgTwo envTriv startW)).1.visited.length :
        Int) ≤ cfgTwo.maxPages) :=
  ⟨by decide, (c4_crawl_bounds cfgTwo envTriv fmTriv startW 3 (by decide)).1.2.1⟩

/-- C5.  In one crawl from a fresh state no URL is processed twice (the
processed trace has duplicate-free URLs); the visited set only grows
(anything visited in a state is still visited after any further running);
and from any state in which a URL is already visited, no later dequeue of
that URL is ever processed (its only processed occurrences are the ones
already in the trace). -/
theorem c5_no_reprocessing (cfg : CrawlConfig) (env : CrawlEnv)
    (fm : List Char → List (List Char)) (start : Url) (fuel : Nat) :
    (((runScrape cfg env fm fuel (initScrapeState cfg env start)).1.processed.map
        Prod.fst).Nodup) ∧
    (∀ (st : ScrapeState) (u : Url) (fuel2 : Nat),
       u ∈ st.visited → u ∈ (runScrape cfg env fm fuel2 st).1.visited) ∧
    (∀ (st : ScrapeState) (u : Url) (fuel2 : Nat),
       u ∈ st.visited →
       ∀ p ∈ (runScrape cfg env fm fuel2 st).1.processed, p.1 = u → p ∈ st.processed) := by
  refine ⟨?_, ?_, ?_⟩
  · exact (runScrape_inv cfg env fm fuel (initScrapeState cfg env start)
      (by simp [initScrapeState]) (by simp [initScrapeState]) (by simp [initScrapeState])
      (by simp [initScrapeState])).2.2.1
  · intro st u fuel2 h
    exact runScrape_visited_mono cfg env fm fuel2 st u h
  · intro st u fuel2 h p hp hpu
    exact runScrape_no_reprocess cfg env fm fuel2 st u h p hp hpu

theorem c5_no_reprocessing_witness :
    startW ∈ (⟨[startW], [], [], []⟩ : ScrapeState).visited ∧
    startW ∈ (runScrape cfgTwo envTriv fmTriv 1 ⟨[startW], [], [], []⟩).1.visited :=
  ⟨by decide,
   (c5_no_reprocessing cfgTwo envTriv fmTriv startW 1).2.1
     ⟨[startW], [], [], []⟩ startW 1 (by decide)⟩

/-- C7.  The email-mode crawl builds one group per distinct validated
address (group keys are duplicate-free), each group's page set is
duplicate-free and its sorted rendering is lexicographically
nondecreasing; in the concrete two-page scenario where `support@voda.co`
occurs on `p1` and on the linked page `p2`, the final output is the
single line `"support@voda.co: p1, p2"` with the sources sorted. -/
theorem c7_email_grouping :
    (∀ (cfg : CrawlConfig) (env : CrawlEnv) (start : Url) (fuel : Nat),
      ((runScrapeEmail cfg env fuel (initEmailState cfg env start)).1.groups.map
          Prod.fst).Nodup ∧
      ∀ gp ∈ (runScrapeEmail cfg env fuel (initEmailState cfg env start)).1.groups,
        gp.2.Nodup ∧ (pySortStrings gp.2).Pairwise (fun a b => lexLe a b = true)) ∧
    (runScrapeEmail cfgC7 envC7 5 (initEmailState cfgC7 envC7 ("p1".data))).2 = true ∧
    (runScrapeEmail cfgC7 envC7 5 (initEmailState cfgC7 envC7 ("p1".data))).1.groups =
      [groupC7] ∧
    formatEmailResults [groupC7] = [("support@voda.co: p1, p2".data)] := by
  refine ⟨?_, by decide, by decide, by decide⟩
  intro cfg env start fuel
  have he := runScrapeEmail_inv cfg env fuel (initEmailState cfg env start)
    (by simp [initEmailState]) (by simp [initEmailState]) (by simp [initEmailState])
    (by simp [initEmailState]) (by simp [initEmailState]) (by simp [initEmailState])
  exact ⟨he.2.2.2.2.1, fun gp hgp =>
    ⟨he.2.2.2.2.2.1 gp hgp, pairwise_pySortStrings gp.2⟩⟩

theorem c7_email_grouping_witness :
    groupC7.2.Nodup ∧ (pySortStrings groupC7.2).Pairwise (fun a b => lexLe a b = true) :=
  (c7_email_grouping.1 cfgC7 envC7 ("p1".data) 5).2 groupC7 (by decide)

/-- C8.  Once started, the crawl always terminates with a result list
(for every environment, including ones whose fetches fail, some fuel
completes the loop); when the loop exits, either the whole queue was
consumed or the page budget was reached (a failing page never drops the
remaining queue); and every result line comes from a successfully fetched
page, so failing pages contribute nothing and never propagate. -/
theorem c8_failure_isolation :
    (∀ (cfg : CrawlConfig) (env : CrawlEnv) (fm : List Char → List (List Char))
       (st : ScrapeState), ∃ n, (runScrape cfg env fm n st).2 = true) ∧
    (∀ (cfg : CrawlConfig) (env : CrawlEnv) (fm : List Char → List (List Char))
       (n : Nat) (st : ScrapeState),
       (runScrape cfg env fm n st).2 = true →
       ((runScrape cfg env fm n st).1.queue = [] ∨
        ¬ (((runScrape cfg env fm n st).1.visited.length : Int) < cfg.maxPages))) ∧
    (∀ (cfg : CrawlConfig) (env : CrawlEnv) (fm : List Char → List (List Char))
       (fuel : Nat) (st : ScrapeState),
       (∀ r ∈ st.results, GoodResult env fm r) →
       ∀ r ∈ (runScrape cfg env fm fuel st).1.results, GoodResult env fm r) := by
  refine ⟨?_, ?_, ?_⟩
  · intro cfg env fm st
    exact runScrape_term cfg env fm (cfg.maxPages.toNat - st.visited.length)
      st.queue.length st le_rfl le_rfl
  · intro cfg env fm n st h
    exact runScrape_finish_char cfg env fm n st h
  · intro cfg env fm fuel st h
    exact runScrape_results_good cfg env fm fuel st h

theorem c8_failure_isolation_witness :
    ((runScrape cfgTwo envTriv fmTriv 2 (initScrapeState cfgTwo envTriv startW)).2 = true) ∧
    ((runScrape cfgTwo envTriv fmTriv 2 (initScrapeState cfgTwo envTriv startW)).1.queue = [] ∨
     ¬ (((runScrape cfgTwo envTriv fmTriv 2
            (initScrapeState cfgTwo envTriv startW)).1.visited.length : Int) <
          cfgTwo.maxPages)) ∧
    (∀ r ∈ (runScrape cfgTwo envTriv fmTriv 2
        (initScrapeState cfgTwo envTriv startW)).1.results, GoodResult envTriv fmTriv r) :=
  ⟨by decide,
   c8_failure_isolation.2.1 cfgTwo envTriv fmTriv 2 (initScrapeState cfgTwo envTriv startW)
     (by decide),
   c8_failure_isolation.2.2 cfgTwo envTriv fmTriv 2 (initScrapeState cfgTwo envTriv startW)
     (by simp [initScrapeState])⟩

/-- C9 (counterexample).  A crawl invoked with `max_pages = 0` is not
rejected: `scrape_site` performs no validation, its loop guard fails on
the first test, and it silently returns the empty result list with
nothing processed — there is no failure, contradicting "the scrape fails
rather than silently returning". -/
theorem c9_counterexample :
    (runScrape cfgZero envTriv fmTriv 1 (initScrapeState cfgZero envTriv startW)).2 = true ∧
    (runScrape cfgZero envTriv fmTriv 1 (initScrapeState cfgZero envTriv startW)).1.results =
      [] ∧
    (runScrape cfgZero envTriv fmTriv 1
        (initScrapeState cfgZero envTriv startW)).1.processed = [] := by
  refine ⟨by decide, by decide, by decide⟩

/-- C9 (amended).  A crawl invoked with `max_pages ≤ 0` is not rejected
and raises nothing: the main loop guard fails before any iteration, no
page is fetched or visited, and the scrape silently returns an empty
result list. -/
theorem c9_amended_nonpositive_budget (cfg : CrawlConfig) (env : CrawlEnv)
    (fm : List Char → List (List Char)) (start : Url) (fuel : Nat)
    (h : cfg.maxPages ≤ 0) (hf : 1 ≤ fuel) :
    (runScrape cfg env fm fuel (initScrapeState cfg env start)).2 = true ∧
    (runScrape cfg env fm fuel (initScrapeState cfg env start)).1.results = [] ∧
    (runScrape cfg env fm fuel (initScrapeState cfg env start)).1.processed = [] ∧
    (runScrape cfg env fm fuel (initScrapeState cfg env start)).1.visited = [] := by
  cases fuel with
  | zero => omega
  | succ n =>
    have hq : (initScrapeState cfg env start).queue =
        (start, 0) :: (if cfg.followSitemap then env.sitemapUrls.map (fun u => (u, 0))
          else []) := rfl
    rw [runScrape_succ_cons cfg env fm n (initScrapeState cfg env start) start 0 _ hq]
    have hb : ¬ (((initScrapeState cfg env start).visited.length : Int) < cfg.maxPages) := by
      simp only [initScrapeState, List.length_nil]
      omega
    rw [if_neg hb]
    exact ⟨rfl, rfl, rfl, rfl⟩

theorem c9_amended_nonpositive_budget_witness :
    cfgZero.maxPages ≤ 0 ∧ (1 : Nat) ≤ 1 ∧
    ((runScrape cfgZero envTriv fmTriv 1 (initScrapeState cfgZero envTriv startW)).2 = true ∧
     (runScrape cfgZero envTriv fmTriv 1 (initScrapeState cfgZero envTriv startW)).1.results =
       [] ∧
     (runScrape cfgZero envTriv fmTriv 1
         (initScrapeState cfgZero envTriv startW)).1.processed = [] ∧
     (runScrape cfgZero envTriv fmTriv 1
         (initScrapeState cfgZero envTriv startW)).1.visited = []) :=
  ⟨by decide, by decide,
   c9_amended_nonpositive_budget cfgZero envTriv fmTriv startW 1 (by decide) (by decide)⟩

theorem findEmailsList_mem (text pageUrl : List Char) :
    ∀ (spans : List (Nat × Nat)) (pr : List Char × List Char),
      pr ∈ findEmailsList spans text pageUrl → isValidEmail pr.1 = true ∧ pr.2 = pageUrl := by
  intro spans
  induction spans with
  | nil =>
    intro pr h
    simp [findEmailsList] at h
  | cons sp sps ih =>
    intro pr h
    rw [findEmailsList] at h
    generalize hE : cleanHtmlArtifacts (pyStrip (sliceOf text sp)) = E at h
    by_cases hv : isValidEmail E = true
    · rw [if_pos hv] at h
      rcases List.mem_cons.mp h with he | he
      · subst he
        exact ⟨hv, rfl⟩
      · exact ih pr he
    · rw [if_neg hv] at h
      exact ih pr h

/-- C10.  `find_emails_with_pages` raises `ValueError` (for every text,
without examining it) whenever the matcher was not built with
`email_mode=True`; with `email_mode=True` it returns the validated list,
and every returned pair carries an address passing `is_valid_email`
together with the given page URL. -/
theorem c10_find_emails_contract :
    (∀ (m : PatternMatcher) (text pageUrl : List Char),
       m.emailMode = false →
       findEmailsWithPages m text pageUrl = Except.error requiresEmailModeMsg) ∧
    (∀ (m : PatternMatcher) (text pageUrl : List Char),
       m.emailMode = true →
       findEmailsWithPages m text pageUrl =
         Except.ok (findEmailsList (matcherFinditer m text) text pageUrl) ∧
       ∀ pr ∈ findEmailsList (matcherFinditer m text) text pageUrl,
         isValidEmail pr.1 = true ∧ pr.2 = pageUrl) := by
  constructor
  · intro m text pageUrl h
    simp [findEmailsWithPages, h]
  · intro m text pageUrl h
    constructor
    · simp [findEmailsWithPages, h]
    · intro pr hpr
      exact findEmailsList_mem text pageUrl (matcherFinditer m text) pr hpr

theorem c10_find_emails_contract_witness :
    (findEmailsWithPages atMatcher ("a".data) ("p".data) =
       Except.error requiresEmailModeMsg) ∧
    (findEmailsWithPages emailMatcher ("support@voda.co".data) ("p".data) =
       Except.ok (findEmailsList (matcherFinditer emailMatcher ("support@voda.co".data))
         ("support@voda.co".data) ("p".data))) ∧
    (isValidEmail (("support@voda.co".data, "p".data) :
        List Char × List Char).1 = true ∧
     (("support@voda.co".data, "p".data) : List Char × List Char).2 = ("p".data)) :=
  ⟨c10_find_emails_contract.1 atMatcher ("a".data) ("p".data) rfl,
   (c10_find_emails_contract.2 emailMatcher ("support@voda.co".data) ("p".data) rfl).1,
   (c10_find_emails_contract.2 emailMatcher ("support@voda.co".data) ("p".data) rfl).2
     (("support@voda.co".data, "p".data)) (by decide)⟩
